import Mathlib

/-!
Shallow embedding of `oomf-plotter/plotter.py` (the whole repository is this
one script).  Numeric entries are modelled as rationals; the parsed content of
an input file is a list of rows, each row a list of rationals — this is the
table that `pd.read_csv(..., header=None)` / `np.loadtxt` would produce from
the file's text.  Python exceptions become an `Err` sum type carried by
`Except`.  Division in the colour computation follows IEEE semantics (numpy
float64): a zero divisor yields a non-finite value instead of an exception,
so colours live in a `PyFloat` type with `inf` / `-inf` / `nan`.
-/

set_option autoImplicit false

/-- Equality of `Except` values is decidable when it is on both components. -/
instance {ε α : Type} [DecidableEq ε] [DecidableEq α] : DecidableEq (Except ε α) := fun a b =>
  match a, b with
  | .error e, .error f =>
    if h : e = f then .isTrue (by rw [h])
    else .isFalse (by intro hc; cases hc; exact h rfl)
  | .error _, .ok _ => .isFalse (by intro hc; cases hc)
  | .ok _, .error _ => .isFalse (by intro hc; cases hc)
  | .ok x, .ok y =>
    if h : x = y then .isTrue (by rw [h])
    else .isFalse (by intro hc; cases hc; exact h rfl)

namespace Plotter

/-- Python exceptions raised by the script.
`invalidExtension f` — `ValueError(f'{f} has an invalid extension.')` in `load_data`;
`notCsv` — `ValueError('filename does not have .csv extension.')` in `load_csv`;
`malformedData` — `ValueError('... File must have 6 columns.')` in both loaders;
`indexError` — `IndexError` from `data.shape[1]` on a 1-D array;
`valueError` — `ValueError` from `np.max` / `np.min` on an empty array. -/
inductive Err where
  | invalidExtension (filename : String)
  | notCsv
  | malformedData
  | indexError
  | valueError
deriving DecidableEq, Repr

/-- A numpy float64 value as far as the colour computation observes it:
either a finite number (modelled exactly as a rational) or one of the
non-finite values `inf`, `-inf`, `nan`. -/
inductive PyFloat where
  | fin (q : ℚ)
  | inf
  | ninf
  | nan
deriving DecidableEq, Repr

/-- Whether a `PyFloat` is finite (`np.isfinite`). -/
def PyFloat.isFinite : PyFloat → Bool
  | .fin _ => true
  | _ => false

/-- IEEE division of finite operands: a nonzero divisor gives the exact
quotient; a zero divisor gives `inf` / `-inf` / `nan` by the sign of the
numerator (numpy emits a warning but raises nothing). -/
def pyDiv (n d : ℚ) : PyFloat :=
  if d ≠ 0 then .fin (n / d)
  else if 0 < n then .inf
  else if n < 0 then .ninf
  else .nan

/-- Python string slice `s[-n:]`: the last `min n (length s)` characters. -/
def pyLastChars (n : Nat) (s : String) : String :=
  ⟨s.data.drop (s.data.length - n)⟩

/-- A numpy array as produced by `np.loadtxt`: one-dimensional or
two-dimensional. -/
inductive NDArray where
  | dim1 (row : List ℚ)
  | dim2 (rows : List (List ℚ))
deriving DecidableEq, Repr

/-- `np.loadtxt`: a file with a single data row (or none) parses to a 1-D
array; two or more rows parse to a 2-D array. -/
def npLoadtxt (rows : List (List ℚ)) : NDArray :=
  match rows with
  | [] => .dim1 []
  | [r] => .dim1 r
  | rs => .dim2 rs

/-- `load_oomf(filename)` applied to the parsed rows of the file.
`data.shape[1]` raises `IndexError` on a 1-D array; otherwise the column
count must be 6, and the table is split into positions (columns 0-2) and
magnetizations (columns 3-5). -/
def load_oomf (rows : List (List ℚ)) : Except Err (List (List ℚ) × List (List ℚ)) :=
  match npLoadtxt rows with
  | .dim1 _ => .error .indexError
  | .dim2 rs =>
    if (rs.headD []).length ≠ 6 then .error .malformedData
    else .ok (rs.map (List.take 3), rs.map (List.drop 3))

/-- `load_csv(filename, header)` applied to the parsed rows of the file.
The extension is re-checked; with `header=True` the first row is consumed as
column names by `pd.read_csv`; the remaining table must have 6 columns and is
split as in `load_oomf`. -/
def load_csv (filename : String) (header : Bool) (rows : List (List ℚ)) :
    Except Err (List (List ℚ) × List (List ℚ)) :=
  if pyLastChars 4 filename ≠ ".csv" then .error .notCsv
  else
    let data := if header then rows.drop 1 else rows
    if (data.headD []).length ≠ 6 then .error .malformedData
    else .ok (data.map (List.take 3), data.map (List.drop 3))

/-- `load_data(filename)` applied to the parsed rows of the file: if the last
5 characters of the name contain a `.`, the name must end in `.csv` (else
`ValueError` naming the file); otherwise the whitespace loader runs.
`load_csv` is called with the default `header=False`. -/
def load_data (filename : String) (rows : List (List ℚ)) :
    Except Err (List (List ℚ) × List (List ℚ)) :=
  if '.' ∈ (pyLastChars 5 filename).data then
    if pyLastChars 4 filename = ".csv" then load_csv filename false rows
    else .error (.invalidExtension filename)
  else
    load_oomf rows

/-- A file system: file name to parsed numeric content.  `load_data` threaded
through it explicitly: the body only reads the file, so the returned file
system is the input one. -/
abbrev FS : Type := String → List (List ℚ)

/-- `load_data` as it acts on the interpreter state: it reads the named file
and writes nothing. -/
def load_data_fs (fs : FS) (filename : String) :
    FS × Except Err (List (List ℚ) × List (List ℚ)) :=
  (fs, load_data filename (fs filename))

/-- A magnetization row is kept when some component is nonzero
(`mag.any(axis=1)` under Python truthiness). -/
def rowAny (r : List ℚ) : Bool :=
  r.any fun q => decide (q ≠ 0)

/-- `np.where(mag.any(axis=1))[0]`: the indices of the rows of `mag` with at
least one nonzero component. -/
def npAnyMask (mag : List (List ℚ)) : List Nat :=
  (List.range mag.length).filter fun i => rowAny (mag.getD i [])

/-- Fancy indexing `a[mask,:]`: a fresh array holding the selected rows. -/
def applyMask (mask : List Nat) (a : List (List ℚ)) : List (List ℚ) :=
  mask.map fun i => a.getD i []

/-- `np.max` on a 1-D array (raises on empty input; the empty case is
handled by the caller before this is used). -/
def npMax : List ℚ → ℚ
  | [] => 0
  | h :: t => t.foldl max h

/-- `np.min` on a 1-D array. -/
def npMin : List ℚ → ℚ
  | [] => 0
  | h :: t => t.foldl min h

/-- The numeric data `plot_magnetization` hands to matplotlib: filtered
coordinate columns, magnetization columns, and the per-site colour scalars. -/
structure RenderData where
  X : List ℚ
  Y : List ℚ
  Mx : List ℚ
  My : List ℚ
  Mz : List ℚ
  color : List PyFloat
deriving DecidableEq, Repr

/-- The column extraction and colour computation of `plot_magnetization`,
applied to the already-filtered arrays.  `np.max` on an empty `Mz` raises
`ValueError`; otherwise `color = 2 * Mz / (np.max(Mz) - np.min(Mz))` with
IEEE division. -/
def renderCore (pos mag : List (List ℚ)) : Except Err RenderData :=
  if (mag.map fun r => r.getD 2 0) = [] then .error .valueError
  else
    .ok ⟨pos.map fun r => r.getD 0 0,
         pos.map fun r => r.getD 1 0,
         mag.map fun r => r.getD 0 0,
         mag.map fun r => r.getD 1 0,
         mag.map fun r => r.getD 2 0,
         (mag.map fun r => r.getD 2 0).map fun z =>
           pyDiv (2 * z) (npMax (mag.map fun r => r.getD 2 0) -
             npMin (mag.map fun r => r.getD 2 0))⟩

/-- The data pipeline of `plot_magnetization(pos, mag)`: build the row mask
from `mag`, apply it to both arrays, then extract columns and colours. -/
def plot_magnetization_data (pos mag : List (List ℚ)) : Except Err RenderData :=
  let mask := npAnyMask mag
  renderCore (applyMask mask pos) (applyMask mask mag)

/-- The filtered out-of-plane components `Mz` as computed inside
`plot_magnetization`: the input of the colour normalization. -/
def filteredMz (mag : List (List ℚ)) : List ℚ :=
  (applyMask (npAnyMask mag) mag).map fun r => r.getD 2 0

/-- A store of allocated arrays, indexed by position in the list.  Models the
Python heap as far as `plot_magnetization` touches it. -/
abbrev Store : Type := List (List (List ℚ))

/-- `plot_magnetization` acting on the store: it reads the two argument
arrays, and the fancy-indexing step `pos[mask,:], mag[mask,:]` allocates two
fresh arrays (appended to the store); nothing already allocated is written. -/
def plot_magnetization_store (σ : Store) (posId magId : Nat) :
    Store × Except Err RenderData :=
  let pos := σ.getD posId []
  let mag := σ.getD magId []
  let mask := npAnyMask mag
  let pos2 := applyMask mask pos
  let mag2 := applyMask mask mag
  (σ ++ [pos2, mag2], renderCore pos2 mag2)

/-! ### Helper lemmas -/

/-- A name ending in `.csv` has a `.` among its last five characters. -/
theorem dot_mem_last5 (fn : String) (h : pyLastChars 4 fn = ".csv") :
    '.' ∈ (pyLastChars 5 fn).data := by
  have h4 : '.' ∈ (pyLastChars 4 fn).data := by
    rw [h]; decide
  have e : fn.data.drop (fn.data.length - 4) =
      List.drop ((fn.data.length - 4) - (fn.data.length - 5))
        (fn.data.drop (fn.data.length - 5)) := by
    rw [List.drop_drop]
    congr 1
    omega
  have h4' : '.' ∈ List.drop ((fn.data.length - 4) - (fn.data.length - 5))
      (fn.data.drop (fn.data.length - 5)) := by
    rw [← e]; exact h4
  exact List.drop_subset _ _ h4'

/-- `np.loadtxt` gives a 2-D array exactly on inputs with at least two rows. -/
theorem npLoadtxt_dim2 (rows : List (List ℚ)) (h : 2 ≤ rows.length) :
    npLoadtxt rows = .dim2 rows := by
  match rows with
  | [] => simp at h
  | [_] => simp at h
  | _ :: _ :: _ => rfl

/-- Selecting rows of `pos` through the index mask built from a predicate on
`mag` equals filtering the zipped lists by the predicate on the second
component and projecting the first. -/
theorem mask_sel {α : Type} (d : α) (p : α → Bool) :
    ∀ (mag pos : List α), pos.length = mag.length →
      (((List.range mag.length).filter fun i => p (mag.getD i d)).map
          fun i => pos.getD i d) =
        ((pos.zip mag).filter fun pm => p pm.2).map Prod.fst := by
  intro mag
  induction mag with
  | nil =>
    intro pos h
    have hp : pos = [] := List.length_eq_zero.mp h
    subst hp
    rfl
  | cons m ms ih =>
    intro pos h
    cases pos with
    | nil => simp at h
    | cons q qs =>
      have h' : qs.length = ms.length := by simpa using h
      have key := ih qs h'
      have efun : ((fun i => p ((m :: ms).getD i d)) ∘ Nat.succ)
          = fun i => p (ms.getD i d) := by
        funext i
        simp [Function.comp, Nat.succ_eq_add_one, List.getD_cons_succ]
      have egun : ((fun i => (q :: qs).getD i d) ∘ Nat.succ)
          = fun i => qs.getD i d := by
        funext i
        simp [Function.comp, Nat.succ_eq_add_one, List.getD_cons_succ]
      have e1 : (((List.range ms.length).map Nat.succ).filter
            fun i => p ((m :: ms).getD i d)) =
          ((List.range ms.length).filter fun i => p (ms.getD i d)).map Nat.succ := by
        rw [List.filter_map, efun]
      simp only [List.length_cons, List.range_succ_eq_map, List.filter_cons,
        List.getD_cons_zero, List.zip_cons_cons]
      by_cases hp : p m
      · simp only [hp, if_true, e1, List.map_cons, List.getD_cons_zero,
          List.map_map, egun, key]
      · simp only [hp, Bool.false_eq_true, if_false, e1, List.map_map, egun, key]

/-- Filtering a list zipped with itself on the second component and taking
first components is plain filtering. -/
theorem zip_self_filter {α : Type} (p : α → Bool) (l : List α) :
    ((l.zip l).filter fun pm => p pm.2).map Prod.fst = l.filter p := by
  induction l with
  | nil => rfl
  | cons a t ih =>
    simp only [List.zip_cons_cons, List.filter_cons]
    by_cases hp : p a
    · simp [hp, ih]
    · simp [hp, ih]

/-- Folding `max` over a list whose elements all equal `a`, starting from
`a`, gives `a`. -/
theorem foldl_max_const (a : ℚ) :
    ∀ t : List ℚ, (∀ x ∈ t, x = a) → t.foldl max a = a := by
  intro t
  induction t with
  | nil => intro _; rfl
  | cons x xs ih =>
    intro hall
    have hx : x = a := hall x (List.mem_cons_self x xs)
    have hxs : ∀ y ∈ xs, y = a := fun y hy => hall y (List.mem_cons_of_mem x hy)
    simp only [List.foldl_cons, hx, max_self]
    exact ih hxs

/-- Folding `min` over a list whose elements all equal `a`, starting from
`a`, gives `a`. -/
theorem foldl_min_const (a : ℚ) :
    ∀ t : List ℚ, (∀ x ∈ t, x = a) → t.foldl min a = a := by
  intro t
  induction t with
  | nil => intro _; rfl
  | cons x xs ih =>
    intro hall
    have hx : x = a := hall x (List.mem_cons_self x xs)
    have hxs : ∀ y ∈ xs, y = a := fun y hy => hall y (List.mem_cons_of_mem x hy)
    simp only [List.foldl_cons, hx, min_self]
    exact ih hxs

/-- `getD` through `map`, at an in-range index. -/
theorem getD_map_lt {α β : Type} (f : α → β) (l : List α) (dα : α) (dβ : β)
    (i : Nat) (h : i < l.length) :
    (l.map f).getD i dβ = f (l.getD i dα) := by
  rw [List.getD_eq_getElem _ _ (by simpa using h), List.getD_eq_getElem _ _ h]
  exact List.getElem_map f

/-- IEEE division by a nonzero divisor is finite and exact. -/
theorem pyDiv_ne_zero (n d : ℚ) (h : d ≠ 0) : pyDiv n d = .fin (n / d) := by
  simp [pyDiv, h]

/-- IEEE division by zero is never finite. -/
theorem pyDiv_zero_not_finite (n : ℚ) : (pyDiv n 0).isFinite = false := by
  unfold pyDiv
  simp only [ne_eq, not_true_eq_false, if_false]
  split
  · rfl
  · split
    · rfl
    · rfl

/-! ### Claim theorems -/

/-- C1: loading a well-formed 6-column `.csv` file with N data rows and no
header yields Position and Magnetization arrays of shape (N, 3), where row i
of Position is columns 0-2 of data row i and row i of Magnetization is
columns 3-5; in particular the two arrays have equal length. -/
theorem csv_load_shape_split (filename : String) (rows : List (List ℚ)) (N : Nat)
    (hext : pyLastChars 4 filename = ".csv")
    (hN : rows.length = N) (hpos : 0 < N)
    (hw : ∀ r ∈ rows, r.length = 6) :
    load_data filename rows = .ok (rows.map (List.take 3), rows.map (List.drop 3)) ∧
    (rows.map (List.take 3)).length = N ∧
    (rows.map (List.drop 3)).length = N ∧
    (∀ p ∈ rows.map (List.take 3), p.length = 3) ∧
    (∀ m ∈ rows.map (List.drop 3), m.length = 3) ∧
    (∀ i, i < N →
      (rows.map (List.take 3)).getD i [] = (rows.getD i []).take 3 ∧
      (rows.map (List.drop 3)).getD i [] = (rows.getD i []).drop 3) ∧
    (rows.map (List.take 3)).length = (rows.map (List.drop 3)).length := by
  have hdot : '.' ∈ (pyLastChars 5 filename).data := dot_mem_last5 filename hext
  have hhead : (rows.head?.getD []).length = 6 := by
    cases rows with
    | nil => rw [List.length_nil] at hN; omega
    | cons r rs => simpa using hw r (List.mem_cons_self r rs)
  have hload : load_data filename rows =
      .ok (rows.map (List.take 3), rows.map (List.drop 3)) := by
    simp [load_data, hdot, hext, load_csv, hhead]
  refine ⟨hload, by simp [hN], by simp [hN], ?_, ?_, ?_, by simp⟩
  · intro p hp
    obtain ⟨s, hs, rfl⟩ := List.mem_map.mp hp
    simp [List.length_take, hw s hs]
  · intro m hm
    obtain ⟨s, hs, rfl⟩ := List.mem_map.mp hm
    simp [List.length_drop, hw s hs]
  · intro i hi
    have hilt : i < rows.length := by omega
    exact ⟨getD_map_lt _ rows [] [] i hilt, getD_map_lt _ rows [] [] i hilt⟩

/-- Witness for C1 on a two-row 6-column file named `pos.csv`. -/
theorem csv_load_shape_split_witness :
    (pyLastChars 4 "pos.csv" = ".csv") ∧
    (∀ r ∈ ([[1,2,3,4,5,6],[7,8,9,10,11,12]] : List (List ℚ)), r.length = 6) ∧
    load_data "pos.csv" [[1,2,3,4,5,6],[7,8,9,10,11,12]] =
      .ok ([[1,2,3],[7,8,9]], [[4,5,6],[10,11,12]]) := by
  refine ⟨by decide, by decide, ?_⟩
  have h := csv_load_shape_split "pos.csv" [[1,2,3,4,5,6],[7,8,9,10,11,12]] 2
    (by decide) (by decide) (by decide) (by decide)
  rw [h.1]
  rfl

/-- C3: a file name whose last five characters contain a `.` but which does
not end in `.csv` makes loading fail with the invalid-extension error naming
the file, whatever the file's contents are (the file is never read). -/
theorem invalid_extension_error (filename : String) (rows : List (List ℚ))
    (hdot : '.' ∈ (pyLastChars 5 filename).data)
    (hext : pyLastChars 4 filename ≠ ".csv") :
    load_data filename rows = .error (.invalidExtension filename) := by
  simp [load_data, hdot, hext]

/-- Witness for C3 on the file name `data.xyz`. -/
theorem invalid_extension_error_witness :
    ('.' ∈ (pyLastChars 5 "data.xyz").data) ∧
    (pyLastChars 4 "data.xyz" ≠ ".csv") ∧
    load_data "data.xyz" [[1,2,3,4,5,6]] = .error (.invalidExtension "data.xyz") :=
  ⟨by decide, by decide,
    invalid_extension_error "data.xyz" [[1,2,3,4,5,6]] (by decide) (by decide)⟩

/-- C4: a file name with no `.` in its last five characters dispatches to the
whitespace loader, and on a well-formed 6-column table with at least two rows
loading succeeds with the position/magnetization split. -/
theorem whitespace_load_ok (filename : String) (rows : List (List ℚ))
    (hdot : '.' ∉ (pyLastChars 5 filename).data)
    (h2 : 2 ≤ rows.length)
    (hw : ∀ r ∈ rows, r.length = 6) :
    load_data filename rows = load_oomf rows ∧
    load_data filename rows = .ok (rows.map (List.take 3), rows.map (List.drop 3)) := by
  have hdisp : load_data filename rows = load_oomf rows := by
    simp [load_data, hdot]
  have hhead : (rows.head?.getD []).length = 6 := by
    cases rows with
    | nil => simp at h2
    | cons r rs => simpa using hw r (List.mem_cons_self r rs)
  have hoomf : load_oomf rows = .ok (rows.map (List.take 3), rows.map (List.drop 3)) := by
    unfold load_oomf
    rw [npLoadtxt_dim2 rows h2]
    simp [hhead]
  exact ⟨hdisp, hdisp.trans hoomf⟩

/-- Witness for C4 on the extension-less file name `data`. -/
theorem whitespace_load_ok_witness :
    ('.' ∉ (pyLastChars 5 "data").data) ∧
    (2 ≤ ([[1,2,3,4,5,6],[2,2,2,2,2,2]] : List (List ℚ)).length) ∧
    load_data "data" [[1,2,3,4,5,6],[2,2,2,2,2,2]] =
      .ok ([[1,2,3],[2,2,2]], [[4,5,6],[2,2,2]]) := by
  refine ⟨by decide, by decide, ?_⟩
  have h := whitespace_load_ok "data" [[1,2,3,4,5,6],[2,2,2,2,2,2]]
    (by decide) (by decide) (by decide)
  rw [h.2]
  rfl

/-- C5: the renderer keeps exactly the rows whose magnetization has at least
one nonzero component, applying the same row mask to both arrays: the
selected position rows are the first components of the zipped pairs whose
magnetization row passes, the selected magnetization rows are the plain
filter, the kept count is the count of passing rows, and both filtered
arrays have the same length. -/
theorem filter_keeps_nonzero_rows (pos mag : List (List ℚ))
    (h : pos.length = mag.length) :
    applyMask (npAnyMask mag) pos =
      ((pos.zip mag).filter fun pm => rowAny pm.2).map Prod.fst ∧
    applyMask (npAnyMask mag) mag = mag.filter rowAny ∧
    (applyMask (npAnyMask mag) mag).length = mag.countP rowAny ∧
    (applyMask (npAnyMask mag) pos).length =
      (applyMask (npAnyMask mag) mag).length := by
  have h1 := mask_sel ([] : List ℚ) rowAny mag pos h
  have h2 := mask_sel ([] : List ℚ) rowAny mag mag rfl
  have e2 : applyMask (npAnyMask mag) mag = mag.filter rowAny := by
    simp only [applyMask, npAnyMask]
    rw [h2, zip_self_filter]
  refine ⟨?_, e2, ?_, by simp [applyMask]⟩
  · simp only [applyMask, npAnyMask]
    exact h1
  · rw [e2, List.countP_eq_length_filter]

/-- Witness for C5 on the spec's example: magnetization
`[[0,0,0],[1,0,0],[0,0,0]]` keeps exactly 1 of 3 sites. -/
theorem filter_keeps_nonzero_rows_witness :
    (([[0,0,0],[1,1,1],[2,2,2]] : List (List ℚ)).length =
      ([[0,0,0],[1,0,0],[0,0,0]] : List (List ℚ)).length) ∧
    applyMask (npAnyMask [[0,0,0],[1,0,0],[0,0,0]]) [[0,0,0],[1,0,0],[0,0,0]] =
      List.filter rowAny [[0,0,0],[1,0,0],[0,0,0]] ∧
    (applyMask (npAnyMask [[0,0,0],[1,0,0],[0,0,0]])
      [[0,0,0],[1,0,0],[0,0,0]]).length = 1 ∧
    ([[0,0,0],[1,0,0],[0,0,0]] : List (List ℚ)).length = 3 := by
  refine ⟨by decide, ?_, by decide, by decide⟩
  exact (filter_keeps_nonzero_rows [[0,0,0],[1,1,1],[2,2,2]]
    [[0,0,0],[1,0,0],[0,0,0]] (by decide)).2.1

/-- C6: when the filtered `Mz` has distinct extrema, the rendering succeeds
and the per-site colour is the finite value `2 * Mz / (max Mz - min Mz)`. -/
theorem color_normalization_formula (pos mag : List (List ℚ))
    (hne : npMax (filteredMz mag) ≠ npMin (filteredMz mag)) :
    ∃ rd : RenderData,
      plot_magnetization_data pos mag = .ok rd ∧
      rd.Mz = filteredMz mag ∧
      rd.color = (filteredMz mag).map fun z =>
        PyFloat.fin (2 * z / (npMax (filteredMz mag) - npMin (filteredMz mag))) := by
  have hnil : filteredMz mag ≠ [] := by
    intro h0
    rw [h0] at hne
    exact hne rfl
  have hden : npMax (filteredMz mag) - npMin (filteredMz mag) ≠ 0 :=
    sub_ne_zero_of_ne hne
  have hcol : (filteredMz mag).map (fun z => pyDiv (2 * z)
        (npMax (filteredMz mag) - npMin (filteredMz mag))) =
      (filteredMz mag).map fun z => PyFloat.fin (2 * z /
        (npMax (filteredMz mag) - npMin (filteredMz mag))) :=
    List.map_congr_left fun z _ => pyDiv_ne_zero _ _ hden
  refine ⟨⟨(applyMask (npAnyMask mag) pos).map fun r => r.getD 0 0,
      (applyMask (npAnyMask mag) pos).map fun r => r.getD 1 0,
      (applyMask (npAnyMask mag) mag).map fun r => r.getD 0 0,
      (applyMask (npAnyMask mag) mag).map fun r => r.getD 1 0,
      filteredMz mag,
      (filteredMz mag).map fun z => pyDiv (2 * z)
        (npMax (filteredMz mag) - npMin (filteredMz mag))⟩, ?_, rfl, hcol⟩
  unfold filteredMz at hnil
  simp only [plot_magnetization_data, renderCore, filteredMz]
  rw [if_neg hnil]

/-- Witness for C6 on `Mz = [1, 3, 5]`, together with the spec's numeric
values `[0.5, 1.5, 2.5]` for the colours. -/
theorem color_normalization_formula_witness :
    (npMax (filteredMz [[0,0,1],[0,0,3],[0,0,5]]) ≠
      npMin (filteredMz [[0,0,1],[0,0,3],[0,0,5]])) ∧
    (∃ rd : RenderData,
      plot_magnetization_data [[0,0,1],[0,1,2],[1,0,3]] [[0,0,1],[0,0,3],[0,0,5]] =
        .ok rd ∧
      rd.Mz = filteredMz [[0,0,1],[0,0,3],[0,0,5]] ∧
      rd.color = (filteredMz [[0,0,1],[0,0,3],[0,0,5]]).map fun z =>
        PyFloat.fin (2 * z / (npMax (filteredMz [[0,0,1],[0,0,3],[0,0,5]]) -
          npMin (filteredMz [[0,0,1],[0,0,3],[0,0,5]])))) ∧
    filteredMz [[0,0,1],[0,0,3],[0,0,5]] = [1, 3, 5] ∧
    ((2 : ℚ) * 1 / (5 - 1) = 1/2 ∧ (2 : ℚ) * 3 / (5 - 1) = 3/2 ∧
      (2 : ℚ) * 5 / (5 - 1) = 5/2) := by
  refine ⟨by decide, ?_, by decide, by norm_num⟩
  exact color_normalization_formula [[0,0,1],[0,1,2],[1,0,3]]
    [[0,0,1],[0,0,3],[0,0,5]] (by decide)

/-- C7: when all filtered `Mz` values are equal the colour denominator is
zero; the computation still returns (no exception) and every colour is a
non-finite value. -/
theorem degenerate_color_nonfinite (pos mag : List (List ℚ))
    (hne : filteredMz mag ≠ [])
    (heq : ∀ z ∈ filteredMz mag, z = (filteredMz mag).headD 0) :
    ∃ rd : RenderData,
      plot_magnetization_data pos mag = .ok rd ∧
      rd.color ≠ [] ∧
      ∀ c ∈ rd.color, c.isFinite = false := by
  obtain ⟨z, zs, hMz⟩ : ∃ z zs, filteredMz mag = z :: zs := by
    cases hM : filteredMz mag with
    | nil => exact absurd hM hne
    | cons z zs => exact ⟨z, zs, rfl⟩
  rw [hMz] at heq
  simp only [List.headD_cons] at heq
  have hall : ∀ x ∈ zs, x = z := fun x hx => heq x (List.mem_cons_of_mem z hx)
  have hmax : npMax (z :: zs) = z := by
    simp only [npMax]
    exact foldl_max_const z zs hall
  have hmin : npMin (z :: zs) = z := by
    simp only [npMin]
    exact foldl_min_const z zs hall
  have hd : npMax (filteredMz mag) - npMin (filteredMz mag) = 0 := by
    rw [hMz, hmax, hmin, sub_self]
  refine ⟨⟨(applyMask (npAnyMask mag) pos).map fun r => r.getD 0 0,
      (applyMask (npAnyMask mag) pos).map fun r => r.getD 1 0,
      (applyMask (npAnyMask mag) mag).map fun r => r.getD 0 0,
      (applyMask (npAnyMask mag) mag).map fun r => r.getD 1 0,
      filteredMz mag,
      (filteredMz mag).map fun w => pyDiv (2 * w)
        (npMax (filteredMz mag) - npMin (filteredMz mag))⟩, ?_, ?_, ?_⟩
  · have hnil := hne
    unfold filteredMz at hnil
    simp only [plot_magnetization_data, renderCore, filteredMz]
    rw [if_neg hnil]
  · simp [hMz]
  · intro c hc
    obtain ⟨w, hwm, rfl⟩ := List.mem_map.mp hc
    rw [hd]
    exact pyDiv_zero_not_finite (2 * w)

/-- Witness for C7 on a single site with `Mz = [7]`. -/
theorem degenerate_color_nonfinite_witness :
    (filteredMz [[1,0,7]] ≠ []) ∧
    (∀ z ∈ filteredMz [[1,0,7]], z = (filteredMz [[1,0,7]]).headD 0) ∧
    (∃ rd : RenderData,
      plot_magnetization_data [[0,0,0]] [[1,0,7]] = .ok rd ∧
      rd.color ≠ [] ∧
      ∀ c ∈ rd.color, c.isFinite = false) :=
  ⟨by decide, by decide,
    degenerate_color_nonfinite [[0,0,0]] [[1,0,7]] (by decide) (by decide)⟩

/-- C8: loading is deterministic and leaves the file system untouched: a call
returns the input file system unchanged, and a second call on the state left
by the first returns the same result. -/
theorem load_data_idempotent (fs : FS) (filename : String) :
    (load_data_fs fs filename).1 = fs ∧
    (load_data_fs ((load_data_fs fs filename).1) filename).2 =
      (load_data_fs fs filename).2 :=
  ⟨rfl, rfl⟩

/-- C9: the renderer never mutates its input arrays: every array allocated in
the store before the call is element-for-element unchanged afterwards, and
the returned data is the pure pipeline of the two argument arrays (the
filtered arrays are fresh allocations). -/
theorem plot_store_frame (σ : Store) (posId magId i : Nat) (hi : i < σ.length) :
    ((plot_magnetization_store σ posId magId).1).getD i [] = σ.getD i [] ∧
    (plot_magnetization_store σ posId magId).2 =
      plot_magnetization_data (σ.getD posId []) (σ.getD magId []) :=
  ⟨List.getD_append σ _ [] i hi, rfl⟩

/-- Witness for C9 on a two-array store. -/
theorem plot_store_frame_witness :
    (0 < ([[[1,2,3]],[[0,0,0]]] : Store).length) ∧
    ((plot_magnetization_store [[[1,2,3]],[[0,0,0]]] 0 1).1).getD 0 [] =
      ([[[1,2,3]],[[0,0,0]]] : Store).getD 0 [] ∧
    (plot_magnetization_store [[[1,2,3]],[[0,0,0]]] 0 1).2 =
      plot_magnetization_data (([[[1,2,3]],[[0,0,0]]] : Store).getD 0 [])
        (([[[1,2,3]],[[0,0,0]]] : Store).getD 1 []) :=
  ⟨by decide, plot_store_frame [[[1,2,3]],[[0,0,0]]] 0 1 0 (by decide)⟩

/-- C10: a whitespace-mode (extension-less) file with exactly one data row
parses to a 1-D array, so the column-count check `data.shape[1]` raises
`IndexError` — whatever the number of fields in the row, 6 included. -/
theorem single_row_whitespace_index_error (filename : String) (r : List ℚ)
    (hdot : '.' ∉ (pyLastChars 5 filename).data) :
    load_data filename [r] = .error .indexError := by
  simp [load_data, hdot, load_oomf, npLoadtxt]

/-- Witness for C10 on a one-row 6-field file named `data`. -/
theorem single_row_whitespace_index_error_witness :
    ('.' ∉ (pyLastChars 5 "data").data) ∧
    load_data "data" [[1,2,3,4,5,6]] = .error .indexError :=
  ⟨by decide, single_row_whitespace_index_error "data" [1,2,3,4,5,6] (by decide)⟩

/-- C2 as stated is refuted by this input: in whitespace mode a one-row table
with 4 columns fails with `IndexError`, not with the malformed-data error. -/
theorem column_check_counterexample :
    load_data "data" [[1, 2, 3, 4]] = .error .indexError ∧
    Err.indexError ≠ Err.malformedData :=
  ⟨rfl, by decide⟩

/-- C2 (amended): a parsed table whose column count is not 6 never yields
arrays; it fails with the malformed-data error in delimiter mode and in
whitespace mode with at least two rows, while a whitespace-mode table with
fewer than two rows fails with `IndexError` instead. -/
theorem column_mismatch_always_errors (filename : String) (rows : List (List ℚ))
    (c : Nat) (hw : ∀ r ∈ rows, r.length = c) (hc : c ≠ 6) :
    (pyLastChars 4 filename = ".csv" →
      load_data filename rows = .error .malformedData) ∧
    ('.' ∉ (pyLastChars 5 filename).data → 2 ≤ rows.length →
      load_data filename rows = .error .malformedData) ∧
    (∀ pm : List (List ℚ) × List (List ℚ), load_data filename rows ≠ .ok pm) := by
  have hhead : (rows.head?.getD []).length ≠ 6 := by
    cases rows with
    | nil => decide
    | cons r rs =>
      have := hw r (List.mem_cons_self r rs)
      simpa [this] using hc
  have hcsv : pyLastChars 4 filename = ".csv" →
      load_data filename rows = .error .malformedData := by
    intro hext
    have hdot := dot_mem_last5 filename hext
    simp [load_data, hdot, hext, load_csv, hhead]
  have hws : '.' ∉ (pyLastChars 5 filename).data → 2 ≤ rows.length →
      load_data filename rows = .error .malformedData := by
    intro hdot h2
    have hdisp : load_data filename rows = load_oomf rows := by
      simp [load_data, hdot]
    rw [hdisp]
    unfold load_oomf
    rw [npLoadtxt_dim2 rows h2]
    simp [hhead]
  refine ⟨hcsv, hws, ?_⟩
  intro pm hok
  by_cases hdot : '.' ∈ (pyLastChars 5 filename).data
  · by_cases hext : pyLastChars 4 filename = ".csv"
    · rw [hcsv hext] at hok
      simp at hok
    · rw [show load_data filename rows = .error (.invalidExtension filename) from
        by simp [load_data, hdot, hext]] at hok
      simp at hok
  · cases rows with
    | nil =>
      rw [show load_data filename ([] : List (List ℚ)) = .error .indexError from
        by simp [load_data, hdot, load_oomf, npLoadtxt]] at hok
      simp at hok
    | cons r rs =>
      cases rs with
      | nil =>
        rw [show load_data filename [r] = .error .indexError from
          by simp [load_data, hdot, load_oomf, npLoadtxt]] at hok
        simp at hok
      | cons r2 rs2 =>
        rw [hws hdot (by simp [List.length_cons])] at hok
        simp at hok

/-- Witness for the amended C2 on a 3-column table. -/
theorem column_mismatch_always_errors_witness :
    (∀ r ∈ ([[1,2,3],[4,5,6]] : List (List ℚ)), r.length = 3) ∧ (3 ≠ 6) ∧
    ((pyLastChars 4 "bad" = ".csv" →
        load_data "bad" [[1,2,3],[4,5,6]] = .error .malformedData) ∧
      ('.' ∉ (pyLastChars 5 "bad").data →
        2 ≤ ([[1,2,3],[4,5,6]] : List (List ℚ)).length →
        load_data "bad" [[1,2,3],[4,5,6]] = .error .malformedData) ∧
      (∀ pm : List (List ℚ) × List (List ℚ),
        load_data "bad" [[1,2,3],[4,5,6]] ≠ .ok pm)) :=
  ⟨by decide, by decide,
    column_mismatch_always_errors "bad" [[1,2,3],[4,5,6]] 3 (by decide) (by decide)⟩

end Plotter
